import Mathlib

/-!
Verification of the structure-of-arrays container and native-marshaling core of
`cepton_sdk.common.general` (file `src/python/cepton_sdk/common/general.py`).

Modelling choices:

* Member arrays live on an explicit heap (`Heap`): a map from array identifiers
  to row lists, together with an allocation counter.  This makes aliasing and
  fresh-storage facts (who can mutate what) directly expressible.
* A row of a member array is modelled as an `Int` (trailing, member-specific
  dimensions are irrelevant to all claims considered here).
* A `StructureOfArrays` value is the instance record: its length `_n`, its
  declared member names (`_get_array_member_names`), and the heap identifier of
  each member array.
* Index keys (`numpy.arange(len(self))[key]` followed by `reshape(indices, [-1])`
  in `_get_indices`, lines 239-242) are modelled by `Key` / `resolveKey`,
  following CPython slice resolution and numpy integer / boolean fancy indexing;
  invalid keys (out-of-range integers, wrong-length masks, zero step) resolve to
  `none`, mirroring the `IndexError` / `ValueError` raised by numpy.
* Failure is modelled with `Option` / `Except String`.
-/

/-- Heap of numpy arrays: contents of each array identifier plus the next
fresh identifier.  Identifiers below `next` are allocated. -/
structure Heap where
  mem : Nat → List Int
  next : Nat

/-- Overwrite the contents of an existing array in place
(numpy `a[...] = v` / `a[indices] = v` target). -/
def Heap.write (h : Heap) (id : Nat) (v : List Int) : Heap :=
  ⟨fun j => if j = id then v else h.mem j, h.next⟩

/-- Allocate a fresh array holding `v`; returns the new heap and the new id. -/
def Heap.alloc (h : Heap) (v : List Int) : Heap × Nat :=
  (⟨fun j => if j = h.next then v else h.mem j, h.next + 1⟩, h.next)

/-- Instance state of `StructureOfArrays` (general.py lines 187-277): the
length `_n`, the declared member-name list returned by
`_get_array_member_names`, and the heap id of each member array. -/
structure StructureOfArrays where
  n : Nat
  names : List String
  ids : String → Nat

/-- Well-formedness of a container on a heap: declared names are distinct, all
member ids are allocated and pairwise distinct, and every member array has
first dimension equal to the length (`spec.md` §3 invariant 1). -/
def StructureOfArrays.WF (c : StructureOfArrays) (h : Heap) : Prop :=
  c.names.Nodup ∧
  (∀ name ∈ c.names, c.ids name < h.next) ∧
  (∀ name ∈ c.names, (h.mem (c.ids name)).length = c.n) ∧
  (∀ na ∈ c.names, ∀ nb ∈ c.names, na ≠ nb → c.ids na ≠ c.ids nb)

instance (c : StructureOfArrays) (h : Heap) : Decidable (c.WF h) := by
  unfold StructureOfArrays.WF
  exact inferInstance

/-- Index keys accepted by `_get_indices` (general.py lines 239-242):
an integer, a slice (`start:stop:step`, each part optional), a boolean mask,
or an integer index list. -/
inductive Key where
  | int (i : Int)
  | slice (start stop step : Option Int)
  | boolMask (bs : List Bool)
  | intList (l : List Int)

/-- Resolution of a single (possibly negative) integer index against length
`n`, as numpy does for `arange(n)[i]`: out-of-range indices are an
`IndexError` (`none`). -/
def normIndex (n : Nat) (i : Int) : Option Nat :=
  if 0 ≤ i ∧ i < (n : Int) then some i.toNat
  else if -(n : Int) ≤ i ∧ i < 0 then some (i + n).toNat
  else none

/-- Positions of the `true` entries of a boolean mask, in order: the result of
numpy boolean indexing on `arange(n)`. -/
def maskIndices : List Bool → List Nat
  | [] => []
  | b :: bs =>
    if b then 0 :: (maskIndices bs).map (· + 1) else (maskIndices bs).map (· + 1)

/-- Option-valued map over a list, failing if any element fails (numpy fancy
indexing checks every index). -/
def mapOpt (f : α → Option β) : List α → Option (List β)
  | [] => some []
  | x :: xs =>
    match f x, mapOpt f xs with
    | some y, some ys => some (y :: ys)
    | _, _ => none

/-- Clamp one endpoint of a slice, as CPython `PySlice_AdjustIndices` does:
negative endpoints are shifted by `n` then clamped below at `lower`,
non-negative ones are clamped above at `upper`. -/
def sliceEndpoint (n : Nat) (lower upper i : Int) : Int :=
  if i < 0 then max (i + n) lower else min i upper

/-- Arithmetic progression of slice indices: start at `cur` and step by `step`
while strictly before (after, for negative step) `en`.  `fuel` dominates the
number of produced indices. -/
def sliceIdxs : Nat → Int → Int → Int → List Int
  | 0, _, _, _ => []
  | fuel + 1, cur, en, step =>
    if (0 < step ∧ cur < en) ∨ (step < 0 ∧ en < cur) then
      cur :: sliceIdxs fuel (cur + step) en step
    else []

/-- Indices selected by the slice `start:stop` with nonzero step `step` on a
sequence of length `n`, following CPython slice semantics (which numpy basic
slicing shares). -/
def resolveSlice (n : Nat) (start stop : Option Int) (step : Int) : List Nat :=
  let lower : Int := if 0 < step then 0 else -1
  let upper : Int := if 0 < step then n else (n : Int) - 1
  let st : Int :=
    match start with
    | none => if 0 < step then lower else upper
    | some i => sliceEndpoint n lower upper i
  let en : Int :=
    match stop with
    | none => if 0 < step then upper else lower
    | some i => sliceEndpoint n lower upper i
  (sliceIdxs n st en step).map Int.toNat

/-- Resolution of a key against length `n`: the flat list of selected element
indices produced by `numpy.arange(n)[key]` followed by `reshape(-1)`
(`_get_indices`, general.py lines 239-242).  `none` models the numpy
`IndexError` / `ValueError` for invalid keys. -/
def resolveKey (n : Nat) : Key → Option (List Nat)
  | Key.int i => (normIndex n i).map (fun j => [j])
  | Key.slice start stop step =>
    let s := step.getD 1
    if s = 0 then none else some (resolveSlice n start stop s)
  | Key.boolMask bs => if bs.length = n then some (maskIndices bs) else none
  | Key.intList l => mapOpt (normIndex n) l

/-- Number of elements a key selects, stated from the key itself: one for an
integer, the count of `true` entries for a boolean mask, the list length for an
integer index list, and the resolved-slice length for a slice. -/
def selCount (n : Nat) : Key → Nat
  | Key.int _ => 1
  | Key.slice start stop step =>
    ((resolveKey n (Key.slice start stop step)).getD []).length
  | Key.boolMask bs => bs.count true
  | Key.intList l => l.length

/-- `_get_indices` (general.py lines 239-242). -/
def StructureOfArrays._get_indices (self : StructureOfArrays) (key : Key) :
    Option (List Nat) :=
  resolveKey self.n key

/-- Construction of a container of length `n`: the base `__init__`
(general.py lines 197-198) stores `_n`; the per-member storage is supplied by
concrete subclasses.  Modelled from the spec: §4.1 `construct(n)` allocates
default-initialized (zero-filled) storage of length `n` for every declared
member.  One fresh array per declared name: the array of the `k`-th declared
name gets identifier `h.next + k`. -/
def StructureOfArrays.construct (S : List String) (n : Nat) (h : Heap) :
    Heap × StructureOfArrays :=
  (⟨fun j => if h.next ≤ j ∧ j < h.next + S.length then List.replicate n 0 else h.mem j,
     h.next + S.length⟩,
   ⟨n, S, fun s => h.next + S.indexOf s⟩)

/-- Rows of `arr` at positions `is` (`arr[indices, ...]`). -/
def selectRows (arr : List Int) (is : List Nat) : List Int :=
  is.map (fun i => arr.getD i 0)

/-- In-place scatter `arr[indices] = vals` of numpy: positions are written in
order, later duplicate indices winning. -/
def writeAt (arr : List Int) (is : List Nat) (vals : List Int) : List Int :=
  (is.zip vals).foldl (fun a p => a.set p.1 p.2) arr

/-- Common shape of the member loops of `__getitem__`, `__setitem__` and
`update`: for each name in order, overwrite the target array `tgt name` in
place with a value computed from the current target and source contents. -/
def memberFold (tgt src : String → Nat) (f : List Int → List Int → List Int) :
    List String → Heap → Heap
  | [], h => h
  | name :: rest, h =>
    memberFold tgt src f rest
      (h.write (tgt name) (f (h.mem (tgt name)) (h.mem (src name))))

/-- `get_common_names` (general.py lines 220-223): intersection of the two
declared member-name sets (the Python `set` order is arbitrary; the claims
below only depend on which names are present). -/
def commonNames (a b : StructureOfArrays) : List String :=
  a.names.filter (fun s => decide (s ∈ b.names))

/-- `__getitem__` (general.py lines 244-252): resolve the key, construct a
fresh container of the resolved size, and copy each declared member's selected
rows into it (`getattr(result, name)[...] = getattr(self, name)[indices, ...]`). -/
def StructureOfArrays.getitem (self : StructureOfArrays) (h : Heap) (key : Key) :
    Option (Heap × StructureOfArrays) :=
  match resolveKey self.n key with
  | none => none
  | some is =>
    some
      (memberFold (StructureOfArrays.construct self.names is.length h).2.ids
        self.ids (fun _ s => selectRows s is) self.names
        (StructureOfArrays.construct self.names is.length h).1,
       (StructureOfArrays.construct self.names is.length h).2)

/-- `__setitem__` (general.py lines 254-259): resolve the key and, for every
common member name, scatter the other container's rows into the selected
positions in place. -/
def StructureOfArrays.setitem (self : StructureOfArrays) (h : Heap) (key : Key)
    (other : StructureOfArrays) : Option Heap :=
  match resolveKey self.n key with
  | none => none
  | some is =>
    some (memberFold self.ids other.ids (fun t s => writeAt t is s)
      (commonNames self other) h)

/-- `update` (general.py lines 225-230): for each name (defaulting to the
common names), overwrite this container's member contents in place with the
other's (`getattr(self, name)[...] = getattr(other, name)`). -/
def StructureOfArrays.update (self : StructureOfArrays) (h : Heap)
    (other : StructureOfArrays) (names : Option (List String)) : Heap :=
  memberFold self.ids other.ids (fun _ s => s)
    (names.getD (commonNames self other)) h

/-- Loop body of `combine` (general.py lines 272-276):
`self[offset:offset + len(other)] = other` for each input in order. -/
def combineLoop (self : StructureOfArrays) :
    List StructureOfArrays → Nat → Heap → Heap
  | [], _, h => h
  | c :: rest, offset, h =>
    match self.setitem h
        (Key.slice (some (offset : Int)) (some ((offset + c.n : Nat) : Int)) none) c with
    | none => h
    | some h' => combineLoop self rest (offset + c.n) h'

/-- `combine` (general.py lines 261-277): an empty list yields a length-0
container; otherwise a container of the summed length is constructed and each
input is written into its slice in order. -/
def StructureOfArrays.combine (S : List String) (cs : List StructureOfArrays)
    (h : Heap) : Heap × StructureOfArrays :=
  if cs.length = 0 then StructureOfArrays.construct S 0 h
  else
    ((combineLoop (StructureOfArrays.construct S ((cs.map StructureOfArrays.n).sum) h).2
        cs 0
        (StructureOfArrays.construct S ((cs.map StructureOfArrays.n).sum) h).1),
     (StructureOfArrays.construct S ((cs.map StructureOfArrays.n).sum) h).2)

/-- Outcome of one `__setattr__` call (general.py lines 207-218). -/
inductive SetattrOutcome where
  | accepted
  | errorAlreadyInit
  | errorNotMember
deriving DecidableEq

/-- `__setattr__` (general.py lines 207-218), as a decision on the attribute
name: class attributes are delegated to `object.__setattr__` unconditionally;
then an attribute already present on the instance is an
"Member already initialized!" error; then `_n` is allowed; then a name
outside `_get_array_member_names()` is a
"Member not listed" error; otherwise the assignment is performed. -/
def StructureOfArrays.setattrOutcome (classAttrs instanceAttrs memberNames : List String)
    (name : String) : SetattrOutcome :=
  if name ∈ classAttrs then SetattrOutcome.accepted
  else if name ∈ instanceAttrs then SetattrOutcome.errorAlreadyInit
  else if name = "_n" then SetattrOutcome.accepted
  else if name ∈ memberNames then SetattrOutcome.accepted
  else SetattrOutcome.errorNotMember

/-- Attribute names defined on the class body of `StructureOfArrays` itself
(general.py lines 187-277); `hasattr(cls, name)` is true for each of them on
every instance of every subclass. -/
def baseClassAttrs : List String :=
  ["_get_array_member_names", "__init__", "__len__", "__setattr__",
   "get_common_names", "update", "convert", "_get_indices",
   "__getitem__", "__setitem__", "combine"]

/-- Element classification of a ctypes array field: character, wide character,
or any other element type (general.py lines 128-137 branch on these). -/
inductive CElem where
  | c_char
  | c_wchar
  | otherElem
deriving DecidableEq

/-- Kind of a ctypes field: a plain scalar field or a fixed-size array field
with an element classification and size. -/
inductive CFieldType where
  | scalar
  | array (elem : CElem) (size : Nat)
deriving DecidableEq

/-- `C_Field` (general.py lines 94-105): name, type and optional width of one
native field description. -/
structure C_Field where
  name : String
  type : CFieldType
  width : Option Nat
deriving DecidableEq

/-- Python values crossing the object/native boundary, as far as the claims
need them. -/
inductive PyValue where
  | pyStr (s : String)
  | pyBytes (bs : List Nat)
  | pyInt (i : Int)
  | pyNone
deriving DecidableEq

/-- UTF-8 encoding of a text value (`value.encode("utf-8")`). -/
def utf8Encode (s : String) : List Nat :=
  s.toUTF8.toList.map (fun b => b.toNat)

/-- `ToCMixin._get_c_member` (general.py lines 150-152).  The method is a
classmethod declared with no parameter besides `cls`, yet its body reads
`member_name` and every call site passes one: a call with an argument raises
`TypeError` for the surplus argument, and a call without one would raise
`NameError` on the unbound `member_name` in the body. -/
def ToCMixin._get_c_member (schema : List C_Field) (args : List PyValue) :
    Except String C_Field :=
  if args.length = 0 then
    Except.error "NameError: name member_name is not defined"
  else
    Except.error "TypeError: _get_c_member() takes 1 positional argument but 2 were given"

/-- `ToCMixin._to_c_value` (general.py lines 126-140).  The first statement
calls `self._get_c_member(member_name)`, which always raises (see
`ToCMixin._get_c_member`); were it to return, the array branches would read
the unbound names `c_char` / `c_wchar` (`NameError`), while a scalar field
would pass the value through unchanged. -/
def ToCMixin._to_c_value (schema : List C_Field) (member_name : String)
    (value : PyValue) : Except String PyValue := do
  let c_member ← ToCMixin._get_c_member schema [PyValue.pyStr member_name]
  match c_member.type with
  | CFieldType.array _ _ => Except.error "NameError: name c_char is not defined"
  | CFieldType.scalar => pure value

/-- Attribute lookup on the in-memory object (`getattr(self, member_name)`),
`none` modelling `AttributeError`. -/
def lookupAttr (obj : List (String × PyValue)) (name : String) : Option PyValue :=
  obj.lookup name

/-- Member loop of `ToCMixin.to_c` (general.py lines 174-182): absent
attributes are skipped, present ones are converted by `_to_c_value` (whose
failure aborts the conversion) and set on the native record. -/
def ToCMixin.to_c_loop (schema : List C_Field) (obj : List (String × PyValue)) :
    List String → List (String × PyValue) → Except String (List (String × PyValue))
  | [], acc => Except.ok acc
  | name :: rest, acc =>
    match lookupAttr obj name with
    | none => ToCMixin.to_c_loop schema obj rest acc
    | some v =>
      match ToCMixin._to_c_value schema name v with
      | Except.error e => Except.error e
      | Except.ok cv => ToCMixin.to_c_loop schema obj rest (acc ++ [(name, cv)])

/-- `ToCMixin.to_c` (general.py lines 166-184): iterate over the schema's
field names (the default `member_names`) and build a freshly allocated native
record.  (`deep_copy` is identity on the immutable values modelled here.) -/
def ToCMixin.to_c (schema : List C_Field) (obj : List (String × PyValue)) :
    Except String (List (String × PyValue)) :=
  ToCMixin.to_c_loop schema obj (schema.map C_Field.name) []

/-- `ToCMixin.from_c` (general.py lines 154-164): read every schema field from
the native record (a ctypes structure always has all of its fields), apply
`_from_c_value` (the identity, lines 121-124) and set it on a fresh object. -/
def ToCMixin.from_c (schema : List C_Field) (c_obj : String → PyValue) :
    List (String × PyValue) :=
  schema.map (fun f => (f.name, c_obj f.name))

/-- Receiver bound to the first parameter of a Python method: an instance, or
the class object itself when the method is a classmethod. -/
inductive PyReceiver where
  | inst (c : StructureOfArrays)
  | classobj

/-- Python `len` applied to the receiver: defined for container instances
(`__len__`, general.py lines 204-205), a `TypeError` for a class object. -/
def pyLen : PyReceiver → Except String Nat
  | PyReceiver.inst c => Except.ok c.n
  | PyReceiver.classobj => Except.error "TypeError: object of type type has no len()"

/-- Body of `ToCArrayMixin.to_c` (general.py lines 304-313): allocate a zeroed
structured buffer of length `len(self)`, have `_to_c_impl` fill it (modelled
abstractly by `impl`, mapping the length to the buffer contents), and return
it. -/
def ToCArrayMixin.to_c_body (impl : Nat → List Int) (self : PyReceiver) :
    Except String (List Int) := do
  let n ← pyLen self
  pure (impl n)

/-- Call of `ToCArrayMixin.to_c` on a container instance.  The method carries
the `@classmethod` decorator (general.py line 304) although its body treats
`self` as an instance, so the receiver bound at every call is the class
object, never the container. -/
def ToCArrayMixin.to_c (impl : Nat → List Int) (c : StructureOfArrays) :
    Except String (List Int) :=
  ToCArrayMixin.to_c_body impl PyReceiver.classobj

/-- Observable result of `ToCArrayMixin.update_from_c`: the heap after the
call, whether the native buffer was read, and how many times the subclass
hook `_from_c_impl` ran. -/
structure FromCResult where
  heap : Heap
  bufferRead : Bool
  implCalls : Nat

/-- `ToCArrayMixin.update_from_c` (general.py lines 291-296): a container of
length 0 returns immediately; otherwise the native buffer is converted to an
ndarray (failing if the buffer is absent) and `_from_c_impl` (modelled
abstractly by `impl`) is invoked once on it. -/
def ToCArrayMixin.update_from_c (impl : List Int → Heap → Heap) (h : Heap)
    (c : StructureOfArrays) (buf : Option (List Int)) : Except String FromCResult :=
  if c.n = 0 then Except.ok ⟨h, false, 0⟩
  else
    match buf with
    | none => Except.error "invalid null buffer dereference"
    | some data => Except.ok ⟨impl data h, true, 1⟩

/-- `ToCArrayMixin.from_c` (general.py lines 298-302): construct a container
of length `n`, then `update_from_c`. -/
def ToCArrayMixin.from_c (S : List String) (impl : List Int → Heap → Heap)
    (n : Nat) (buf : Option (List Int)) (h : Heap) :
    Except String (FromCResult × StructureOfArrays) :=
  match ToCArrayMixin.update_from_c impl
      (StructureOfArrays.construct S n h).1
      (StructureOfArrays.construct S n h).2 buf with
  | Except.error e => Except.error e
  | Except.ok r => Except.ok (r, (StructureOfArrays.construct S n h).2)

/-- Instance state of `single_cache` (general.py lines 25-36): the stored
`_result` (a heap id, or `none` for Python `None`) and, for the claims, a
count of how many times the wrapped function has been invoked. -/
structure SingleCacheState where
  result : Option Nat
  funcCalls : Nat
deriving DecidableEq

/-- Freshly constructed `single_cache` wrapper: `_result = None`. -/
def single_cache.start : SingleCacheState := ⟨none, 0⟩

/-- One `__call__` of `single_cache` (general.py lines 33-36): if `_result is
None`, invoke the wrapped function (whose return value is `None`, or a fresh
allocation of the row list `v` when `produce = some v`) and store it; then
return `copy.deepcopy(self._result)`, a fresh allocation holding a copy of
the stored contents. -/
def single_cache.call (produce : Option (List Int)) (h : Heap)
    (s : SingleCacheState) : Option Nat × Heap × SingleCacheState :=
  match s.result with
  | none =>
    match produce with
    | none => (none, h, ⟨none, s.funcCalls + 1⟩)
    | some v =>
      ((h.alloc v).1.alloc ((h.alloc v).1.mem (h.alloc v).2) |>.2,
       (h.alloc v).1.alloc ((h.alloc v).1.mem (h.alloc v).2) |>.1,
       ⟨some (h.alloc v).2, s.funcCalls + 1⟩)
  | some id => ((h.alloc (h.mem id)).2, (h.alloc (h.mem id)).1, s)

/-- Iterated calls of a `single_cache` wrapper, discarding the returned
copies. -/
def single_cache.callN (produce : Option (List Int)) (h : Heap)
    (s : SingleCacheState) : Nat → Heap × SingleCacheState
  | 0 => (h, s)
  | k + 1 =>
    single_cache.callN produce (single_cache.call produce h s).2.1
      (single_cache.call produce h s).2.2 k

/-- Concrete member schema used by the witnesses below. -/
def wS : List String := ["x", "id"]

/-- Concrete heap holding the member arrays of `wA` and `wB`. -/
def wHeap : Heap :=
  ⟨fun j =>
    if j = 0 then [1, 2, 3]
    else if j = 1 then [10, 20, 30]
    else if j = 2 then [4, 5, 6]
    else if j = 3 then [40, 50, 60]
    else [], 4⟩

/-- Concrete length-3 container with members `x ↦ [1,2,3]`, `id ↦ [10,20,30]`. -/
def wA : StructureOfArrays := ⟨3, wS, fun s => if s = "x" then 0 else 1⟩

/-- Concrete length-3 container with members `x ↦ [4,5,6]`, `id ↦ [40,50,60]`. -/
def wB : StructureOfArrays := ⟨3, wS, fun s => if s = "x" then 2 else 3⟩

/-- Concrete length-0 container sharing the schema of `wA`. -/
def wEmpty : StructureOfArrays := ⟨0, wS, fun _ => 0⟩

theorem Heap.mem_write (h : Heap) (id : Nat) (v : List Int) (j : Nat) :
    (h.write id v).mem j = if j = id then v else h.mem j := rfl

theorem Heap.next_write (h : Heap) (id : Nat) (v : List Int) :
    (h.write id v).next = h.next := rfl

theorem memberFold_next (tgt src : String → Nat) (f : List Int → List Int → List Int)
    (names : List String) : ∀ h : Heap, (memberFold tgt src f names h).next = h.next := by
  induction names with
  | nil => intro h; rfl
  | cons x rest ih => intro h; rw [memberFold, ih]; rfl

theorem memberFold_frame (tgt src : String → Nat) (f : List Int → List Int → List Int)
    (names : List String) : ∀ (h : Heap) (j : Nat), (∀ name ∈ names, tgt name ≠ j) →
    (memberFold tgt src f names h).mem j = h.mem j := by
  induction names with
  | nil => intro h j _; rfl
  | cons x rest ih =>
    intro h j hj
    rw [memberFold, ih _ j (fun name hm => hj name (List.mem_cons_of_mem x hm))]
    have hx : tgt x ≠ j := hj x (List.mem_cons_self x rest)
    rw [Heap.mem_write, if_neg (fun he => hx he.symm)]

theorem memberFold_mem (tgt src : String → Nat) (f : List Int → List Int → List Int)
    (names : List String) : ∀ h : Heap,
    names.Nodup →
    (∀ na ∈ names, ∀ nb ∈ names, na ≠ nb → tgt na ≠ tgt nb) →
    (∀ na ∈ names, ∀ nb ∈ names, tgt na ≠ src nb) →
    ∀ name ∈ names,
      (memberFold tgt src f names h).mem (tgt name) =
        f (h.mem (tgt name)) (h.mem (src name)) := by
  induction names with
  | nil => intro h _ _ _ name hm; cases hm
  | cons x rest ih =>
    intro h hnd hinj hdisj name hm
    have hxr : x ∉ rest := (List.nodup_cons.mp hnd).1
    rw [memberFold]
    rcases List.mem_cons.mp hm with hx | hr
    · subst hx
      rw [memberFold_frame tgt src f rest _ (tgt name)
          (fun nb hnb => hinj nb (List.mem_cons_of_mem _ hnb) name (List.mem_cons_self _ _)
            (fun he => hxr (he ▸ hnb)))]
      rw [Heap.mem_write, if_pos rfl]
    · have hxn : x ≠ name := fun he => hxr (he ▸ hr)
      rw [ih _ (List.nodup_cons.mp hnd).2
            (fun na ha nb hb hne => hinj na (List.mem_cons_of_mem _ ha) nb (List.mem_cons_of_mem _ hb) hne)
            (fun na ha nb hb => hdisj na (List.mem_cons_of_mem _ ha) nb (List.mem_cons_of_mem _ hb))
            name hr]
      have h1 : tgt x ≠ tgt name :=
        hinj x (List.mem_cons_self _ _) name (List.mem_cons_of_mem _ hr) hxn
      have h2 : tgt x ≠ src name :=
        hdisj x (List.mem_cons_self _ _) name (List.mem_cons_of_mem _ hr)
      rw [Heap.mem_write, Heap.mem_write, if_neg (fun he => h1 he.symm),
        if_neg (fun he => h2 he.symm)]

theorem construct_next (S : List String) (n : Nat) (h : Heap) :
    (StructureOfArrays.construct S n h).1.next = h.next + S.length := rfl

theorem construct_n (S : List String) (n : Nat) (h : Heap) :
    (StructureOfArrays.construct S n h).2.n = n := rfl

theorem construct_names (S : List String) (n : Nat) (h : Heap) :
    (StructureOfArrays.construct S n h).2.names = S := rfl

theorem construct_mem_old (S : List String) (n : Nat) (h : Heap) (j : Nat)
    (hj : j < h.next) : (StructureOfArrays.construct S n h).1.mem j = h.mem j := by
  show (if h.next ≤ j ∧ j < h.next + S.length then List.replicate n 0 else h.mem j) = h.mem j
  rw [if_neg]
  intro hc
  omega

theorem construct_ids_ge (S : List String) (n : Nat) (h : Heap) (name : String) :
    h.next ≤ (StructureOfArrays.construct S n h).2.ids name := by
  show h.next ≤ h.next + S.indexOf name
  omega

theorem construct_ids_lt (S : List String) (n : Nat) (h : Heap) (name : String)
    (hm : name ∈ S) :
    (StructureOfArrays.construct S n h).2.ids name < (StructureOfArrays.construct S n h).1.next := by
  show h.next + S.indexOf name < h.next + S.length
  have := List.indexOf_lt_length.mpr hm
  omega

theorem construct_content (S : List String) (n : Nat) (h : Heap) (name : String)
    (hm : name ∈ S) :
    (StructureOfArrays.construct S n h).1.mem ((StructureOfArrays.construct S n h).2.ids name) =
      List.replicate n 0 := by
  show (if h.next ≤ h.next + S.indexOf name ∧ h.next + S.indexOf name < h.next + S.length
      then List.replicate n 0 else h.mem (h.next + S.indexOf name)) = List.replicate n 0
  rw [if_pos]
  have := List.indexOf_lt_length.mpr hm
  omega

theorem construct_ids_inj (S : List String) (n : Nat) (h : Heap) (na nb : String)
    (hna : na ∈ S) (hnb : nb ∈ S) (hne : na ≠ nb) :
    (StructureOfArrays.construct S n h).2.ids na ≠ (StructureOfArrays.construct S n h).2.ids nb := by
  show h.next + S.indexOf na ≠ h.next + S.indexOf nb
  intro hc
  exact hne ((List.indexOf_inj hna hnb).mp (by omega))

theorem selectRows_length (arr : List Int) (is : List Nat) :
    (selectRows arr is).length = is.length := by
  simp [selectRows]

theorem mapOpt_length (f : α → Option β) : ∀ (l : List α) (r : List β),
    mapOpt f l = some r → r.length = l.length := by
  intro l
  induction l with
  | nil =>
    intro r hr
    simp [mapOpt] at hr
    subst hr
    rfl
  | cons x xs ih =>
    intro r hr
    rw [mapOpt] at hr
    cases hfx : f x with
    | none => rw [hfx] at hr; cases hr
    | some y =>
      cases hmx : mapOpt f xs with
      | none => rw [hfx, hmx] at hr; cases hr
      | some ys =>
        rw [hfx, hmx] at hr
        cases hr
        simp [ih ys hmx]

theorem maskIndices_length : ∀ bs : List Bool,
    (maskIndices bs).length = bs.count true := by
  intro bs
  induction bs with
  | nil => rfl
  | cons b rest ih =>
    rw [maskIndices]
    cases b <;> simp [List.count_cons, ih]

/-- Length of the index list a valid key resolves to, related to the
spec-side count of selected elements. -/
theorem resolveKey_selCount (n : Nat) (k : Key) (is : List Nat)
    (hres : resolveKey n k = some is) : is.length = selCount n k := by
  cases k with
  | int i =>
    rw [resolveKey] at hres
    cases hni : normIndex n i with
    | none => rw [hni] at hres; cases hres
    | some j => rw [hni] at hres; cases hres; rfl
  | slice start stop step =>
    rw [selCount, hres]
    rfl
  | boolMask bs =>
    rw [resolveKey] at hres
    by_cases hb : bs.length = n
    · rw [if_pos hb] at hres
      cases hres
      rw [selCount, maskIndices_length]
    · rw [if_neg hb] at hres; cases hres
  | intList l =>
    rw [selCount]
    exact mapOpt_length _ l is hres

/-- Full specification of `__getitem__` on a valid key: the call succeeds, the
result is a container of the same schema whose length is the resolved index
count, each member holds exactly the selected rows in fresh storage disjoint
from (and leaving untouched) the source container's storage, and the result is
well-formed. -/
theorem getitem_spec (c : StructureOfArrays) (h : Heap) (k : Key) (is : List Nat)
    (hwf : c.WF h) (hres : resolveKey c.n k = some is) :
    ∃ h' r, c.getitem h k = some (h', r) ∧
      r.names = c.names ∧ r.n = is.length ∧
      (∀ name ∈ c.names, h'.mem (r.ids name) = selectRows (h.mem (c.ids name)) is) ∧
      (∀ name ∈ c.names, h'.mem (c.ids name) = h.mem (c.ids name)) ∧
      (∀ na ∈ c.names, ∀ nb ∈ c.names, r.ids na ≠ c.ids nb) ∧
      r.WF h' := by
  obtain ⟨hnd, hlt, hlen, hinj⟩ := hwf
  have hdisj : ∀ na ∈ c.names, ∀ nb ∈ c.names,
      (StructureOfArrays.construct c.names is.length h).2.ids na ≠ c.ids nb := by
    intro na _ nb hnb
    have h1 := construct_ids_ge c.names is.length h na
    have h2 := hlt nb hnb
    omega
  have htinj : ∀ na ∈ c.names, ∀ nb ∈ c.names, na ≠ nb →
      (StructureOfArrays.construct c.names is.length h).2.ids na ≠
        (StructureOfArrays.construct c.names is.length h).2.ids nb :=
    fun na hna nb hnb hne => construct_ids_inj c.names is.length h na nb hna hnb hne
  have hsrc : ∀ name ∈ c.names,
      (StructureOfArrays.construct c.names is.length h).1.mem (c.ids name) =
        h.mem (c.ids name) :=
    fun name hm => construct_mem_old c.names is.length h (c.ids name) (hlt name hm)
  refine ⟨memberFold (StructureOfArrays.construct c.names is.length h).2.ids c.ids
      (fun _ s => selectRows s is) c.names (StructureOfArrays.construct c.names is.length h).1,
    (StructureOfArrays.construct c.names is.length h).2, ?_, rfl, rfl, ?_, ?_, hdisj, ?_⟩
  · rw [StructureOfArrays.getitem, hres]
  · intro name hm
    rw [memberFold_mem _ _ _ c.names _ hnd htinj hdisj name hm, hsrc name hm]
  · intro name hm
    rw [memberFold_frame _ _ _ c.names _ (c.ids name)
        (fun nb hnb => hdisj nb hnb name hm), hsrc name hm]
  · refine ⟨hnd, ?_, ?_, htinj⟩
    · intro name hm
      rw [memberFold_next, construct_next]
      have := construct_ids_lt c.names is.length h name hm
      rw [construct_next] at this
      exact this
    · intro name hm
      rw [memberFold_mem _ _ _ c.names _ hnd htinj hdisj name hm, hsrc name hm,
        selectRows_length, construct_n]

theorem sliceIdxs_step_one : ∀ (m fuel o : Nat) (en : Int), en = (o : Int) + (m : Int) →
    m ≤ fuel → (sliceIdxs fuel (o : Int) en 1).map Int.toNat = List.range' o m := by
  intro m
  induction m with
  | zero =>
    intro fuel o en hen _
    cases fuel with
    | zero => rfl
    | succ f =>
      rw [sliceIdxs, if_neg]
      · rfl
      · subst hen
        push_cast
        omega
  | succ m ih =>
    intro fuel o en hen hf
    cases fuel with
    | zero => omega
    | succ f =>
      rw [sliceIdxs, if_pos]
      · have hcast : (o : Int) + 1 = ((o + 1 : Nat) : Int) := by push_cast; ring
        rw [List.map_cons, hcast, ih f (o + 1) en (by subst hen; push_cast; ring) (by omega),
          List.range'_succ]
        simp
      · left
        constructor
        · norm_num
        · subst hen
          push_cast
          omega

theorem resolveSlice_closed (n o m : Nat) (x y : Int) (hx : x = (o : Int))
    (hy : y = (o : Int) + (m : Int)) (hom : o + m ≤ n) :
    resolveSlice n (some x) (some y) 1 = List.range' o m := by
  subst hx
  subst hy
  have h01 : (0 : Int) < 1 := by norm_num
  have hno : ¬((o : Int) < 0) := not_lt.mpr (Int.natCast_nonneg o)
  have hnom : ¬((o : Int) + (m : Int) < 0) := by
    have := Int.natCast_nonneg o
    have := Int.natCast_nonneg m
    omega
  have hmin1 : min ((o : Int)) ((n : Int)) = (o : Int) :=
    min_eq_left (by exact_mod_cast Nat.le_trans (Nat.le_add_right o m) hom)
  have hmin2 : min ((o : Int) + (m : Int)) ((n : Int)) = (o : Int) + (m : Int) := by
    apply min_eq_left
    have : ((o + m : Nat) : Int) ≤ (n : Int) := by exact_mod_cast hom
    push_cast at this
    omega
  simp only [resolveSlice, sliceEndpoint, if_pos h01, if_neg hno, if_neg hnom, hmin1, hmin2]
  exact sliceIdxs_step_one m n o _ rfl (by omega)

theorem resolveSlice_to_end (n o : Nat) (x : Int) (hx : x = (o : Int)) (ho : o ≤ n) :
    resolveSlice n (some x) none 1 = List.range' o (n - o) := by
  subst hx
  have h01 : (0 : Int) < 1 := by norm_num
  have hno : ¬((o : Int) < 0) := not_lt.mpr (Int.natCast_nonneg o)
  have hmin1 : min ((o : Int)) ((n : Int)) = (o : Int) := min_eq_left (by exact_mod_cast ho)
  simp only [resolveSlice, sliceEndpoint, if_pos h01, if_neg hno, hmin1]
  exact sliceIdxs_step_one (n - o) n o _ (by push_cast; omega) (by omega)

theorem take_set_succ : ∀ (arr : List Int) (o : Nat) (v : Int), o < arr.length →
    (arr.set o v).take (o + 1) = arr.take o ++ [v] := by
  intro arr
  induction arr with
  | nil => intro o v ho; cases ho
  | cons x rest ih =>
    intro o v ho
    cases o with
    | zero => rfl
    | succ o' =>
      rw [List.set_cons_succ, List.take_cons_succ, List.take_cons_succ,
        ih o' v (by simpa using ho)]
      rfl

theorem drop_set_lt : ∀ (arr : List Int) (o m : Nat) (v : Int), o < m →
    (arr.set o v).drop m = arr.drop m := by
  intro arr
  induction arr with
  | nil => intro o m v _; rfl
  | cons x rest ih =>
    intro o m v hom
    cases o with
    | zero =>
      cases m with
      | zero => omega
      | succ m' => rfl
    | succ o' =>
      cases m with
      | zero => omega
      | succ m' =>
        rw [List.set_cons_succ, List.drop_succ_cons, List.drop_succ_cons,
          ih o' m' v (by omega)]

theorem writeAt_range' : ∀ (vals arr : List Int) (o : Nat), o + vals.length ≤ arr.length →
    writeAt arr (List.range' o vals.length) vals =
      arr.take o ++ vals ++ arr.drop (o + vals.length) := by
  intro vals
  induction vals with
  | nil =>
    intro arr o ho
    show arr = arr.take o ++ [] ++ arr.drop (o + 0)
    rw [List.append_nil, Nat.add_zero, List.take_append_drop]
  | cons v vs ih =>
    intro arr o ho
    have hlen : o < arr.length := by simp at ho; omega
    have step : writeAt arr (List.range' o (v :: vs).length) (v :: vs) =
        writeAt (arr.set o v) (List.range' (o + 1) vs.length) vs := by
      rw [List.length_cons, List.range'_succ]
      rfl
    rw [step, ih (arr.set o v) (o + 1) (by rw [List.length_set]; simp at ho ⊢; omega),
      take_set_succ arr o v hlen, drop_set_lt arr o (o + 1 + vs.length) v (by omega)]
    have harith : o + 1 + vs.length = o + (v :: vs).length := by simp; omega
    rw [harith]
    simp

theorem selectRows_range' : ∀ (m o : Nat) (arr : List Int), o + m ≤ arr.length →
    selectRows arr (List.range' o m) = (arr.drop o).take m := by
  intro m
  induction m with
  | zero => intro o arr _; rfl
  | succ m ih =>
    intro o arr ho
    have hlt : o < arr.length := by omega
    rw [List.range'_succ]
    show arr.getD o 0 :: selectRows arr (List.range' (o + 1) m) = (arr.drop o).take (m + 1)
    rw [ih (o + 1) arr (by omega), List.getD_eq_getElem arr 0 hlt,
      List.drop_eq_getElem_cons hlt, List.take_cons_succ]

theorem commonNames_all (a b : StructureOfArrays) (hab : a.names = b.names) :
    commonNames a b = a.names := by
  rw [commonNames]
  apply List.filter_eq_self.mpr
  intro s hs
  exact decide_eq_true (hab ▸ hs)

/-- Specification of `__setitem__` on a valid key when every declared name is
common: each of this container's member arrays gets the other's rows scattered
into the selected positions in place, and no other array changes. -/
theorem setitem_spec (self other : StructureOfArrays) (h : Heap) (k : Key) (is : List Nat)
    (hres : resolveKey self.n k = some is)
    (hnames : commonNames self other = self.names)
    (hnodup : self.names.Nodup)
    (hinj : ∀ na ∈ self.names, ∀ nb ∈ self.names, na ≠ nb → self.ids na ≠ self.ids nb)
    (hdisj : ∀ na ∈ self.names, ∀ nb ∈ self.names, self.ids na ≠ other.ids nb) :
    ∃ h', self.setitem h k other = some h' ∧
      (∀ name ∈ self.names, h'.mem (self.ids name) =
        writeAt (h.mem (self.ids name)) is (h.mem (other.ids name))) ∧
      (∀ j, (∀ name ∈ self.names, self.ids name ≠ j) → h'.mem j = h.mem j) ∧
      h'.next = h.next := by
  refine ⟨memberFold self.ids other.ids (fun t s => writeAt t is s) self.names h,
    ?_, ?_, ?_, ?_⟩
  · rw [StructureOfArrays.setitem, hres, hnames]
  · intro name hm
    exact memberFold_mem _ _ _ self.names h hnodup hinj hdisj name hm
  · intro j hj
    exact memberFold_frame _ _ _ self.names h j hj
  · exact memberFold_next _ _ _ self.names h

/-- Specification of `update` with the default name list when every declared
name is common: each of this container's member arrays is overwritten in place
with the other's contents, and nothing else changes. -/
theorem update_spec (a b : StructureOfArrays) (h : Heap)
    (hnames : commonNames a b = a.names)
    (hnodup : a.names.Nodup)
    (hinj : ∀ na ∈ a.names, ∀ nb ∈ a.names, na ≠ nb → a.ids na ≠ a.ids nb)
    (hdisj : ∀ na ∈ a.names, ∀ nb ∈ a.names, a.ids na ≠ b.ids nb) :
    (∀ name ∈ a.names, (a.update h b none).mem (a.ids name) = h.mem (b.ids name)) ∧
    (∀ j, (∀ name ∈ a.names, a.ids name ≠ j) → (a.update h b none).mem j = h.mem j) ∧
    (a.update h b none).next = h.next := by
  have hdef : a.update h b none =
      memberFold a.ids b.ids (fun _ s => s) a.names h := by
    rw [StructureOfArrays.update, Option.getD_none, hnames]
  refine ⟨?_, ?_, ?_⟩
  · intro name hm
    rw [hdef]
    exact memberFold_mem _ _ _ a.names h hnodup hinj hdisj name hm
  · intro j hj
    rw [hdef]
    exact memberFold_frame _ _ _ a.names h j hj
  · rw [hdef]
    exact memberFold_next _ _ _ a.names h

/-- C1: for every structure-of-arrays container `c` and every valid index key
`k` (an integer, a slice, or a boolean/integer index set over the container's
range), `c[k]` returns a new container of the same concrete type (schema)
whose length equals the number of elements selected by `k`, with every
declared member's selected rows copied into fresh storage; mutating any member
array of the result never changes the corresponding member of `c` (and the
operation itself leaves `c`'s members untouched). -/
theorem C1_getitem_fresh_selected_copy (c : StructureOfArrays) (h : Heap) (k : Key)
    (is : List Nat) (hwf : c.WF h) (hres : resolveKey c.n k = some is) :
    ∃ h' r, c.getitem h k = some (h', r) ∧
      r.names = c.names ∧
      r.n = selCount c.n k ∧
      (∀ name ∈ c.names, h'.mem (r.ids name) = selectRows (h.mem (c.ids name)) is) ∧
      (∀ name ∈ c.names, h'.mem (c.ids name) = h.mem (c.ids name)) ∧
      (∀ nm ∈ c.names, ∀ v : List Int, ∀ nc ∈ c.names,
        (h'.write (r.ids nm) v).mem (c.ids nc) = h'.mem (c.ids nc)) := by
  obtain ⟨h', r, hcall, hnames, hn, hmem, hframe, hdisj, _⟩ := getitem_spec c h k is hwf hres
  refine ⟨h', r, hcall, hnames, ?_, hmem, hframe, ?_⟩
  · rw [hn, resolveKey_selCount c.n k is hres]
  · intro nm hnm v nc hnc
    rw [Heap.mem_write, if_neg (fun he => hdisj nm hnm nc hnc he.symm)]

/-- Witness for C1: the boolean mask `[False, True, True]` on a concrete
length-3 two-member container selects rows 1 and 2 into a fresh container of
length 2. -/
theorem C1_witness :
    ∃ h' r, wA.getitem wHeap (Key.boolMask [false, true, true]) = some (h', r) ∧
      r.names = wA.names ∧
      r.n = selCount wA.n (Key.boolMask [false, true, true]) ∧
      (∀ name ∈ wA.names, h'.mem (r.ids name) =
        selectRows (wHeap.mem (wA.ids name)) [1, 2]) ∧
      (∀ name ∈ wA.names, h'.mem (wA.ids name) = wHeap.mem (wA.ids name)) ∧
      (∀ nm ∈ wA.names, ∀ v : List Int, ∀ nc ∈ wA.names,
        (h'.write (r.ids nm) v).mem (wA.ids nc) = h'.mem (wA.ids nc)) :=
  C1_getitem_fresh_selected_copy wA wHeap (Key.boolMask [false, true, true]) [1, 2]
    (by decide) (by decide)

/-- C10: indexing a container with a single integer `i` in
`[-len(c), len(c))` yields a container (never a scalar record) of length
exactly 1 whose single row is row `i` of `c` (negative indices counting from
the end), because the resolved index list is reshaped to one dimension before
selection. -/
theorem C10_int_index_singleton (c : StructureOfArrays) (h : Heap) (i : Int)
    (hwf : c.WF h) (hlo : -(c.n : Int) ≤ i) (hhi : i < (c.n : Int)) :
    ∃ h' r, c.getitem h (Key.int i) = some (h', r) ∧
      r.names = c.names ∧ r.n = 1 ∧
      ∀ name ∈ c.names, h'.mem (r.ids name) =
        [(h.mem (c.ids name)).getD (if i < 0 then (i + c.n).toNat else i.toNat) 0] := by
  have hres : resolveKey c.n (Key.int i) =
      some [if i < 0 then (i + c.n).toNat else i.toNat] := by
    rw [resolveKey, normIndex]
    by_cases hneg : i < 0
    · rw [if_neg (by omega : ¬(0 ≤ i ∧ i < (c.n : Int))), if_pos ⟨hlo, hneg⟩]
      simp [if_pos hneg]
    · rw [if_pos ⟨by omega, hhi⟩]
      simp [if_neg hneg]
  obtain ⟨h', r, hcall, hnames, hn, hmem, _, _, _⟩ :=
    getitem_spec c h (Key.int i) _ hwf hres
  exact ⟨h', r, hcall, hnames, hn, fun name hm => hmem name hm⟩

/-- Witness for C10: index `-1` on a concrete length-3 container yields a
length-1 container holding row 2. -/
theorem C10_witness :
    ∃ h' r, wA.getitem wHeap (Key.int (-1)) = some (h', r) ∧
      r.names = wA.names ∧ r.n = 1 ∧
      ∀ name ∈ wA.names, h'.mem (r.ids name) =
        [(wHeap.mem (wA.ids name)).getD
          (if (-1 : Int) < 0 then ((-1 : Int) + wA.n).toNat else (-1 : Int).toNat) 0] :=
  C10_int_index_singleton wA wHeap (-1) (by decide) (by decide) (by decide)

/-- C3: for all same-schema containers `a` and `b` with `len(a) == len(b)`,
after `a.update(b)` every member of `a` named in the common member-name set
equals the corresponding member of `b` field-wise (and keeps first dimension
`len(a)`), while every other attribute of `a` — its length and every array not
targeted by the update — is unchanged. -/
theorem C3_update_common_members (a b : StructureOfArrays) (h : Heap)
    (hab : a.names = b.names) (hlen : a.n = b.n) (hwfa : a.WF h) (hwfb : b.WF h)
    (hdisj : ∀ na ∈ a.names, ∀ nb ∈ a.names, a.ids na ≠ b.ids nb) :
    (∀ name ∈ commonNames a b, (a.update h b none).mem (a.ids name) = h.mem (b.ids name)) ∧
    (∀ name ∈ commonNames a b, ((a.update h b none).mem (a.ids name)).length = a.n) ∧
    (∀ j, (∀ name ∈ commonNames a b, a.ids name ≠ j) → (a.update h b none).mem j = h.mem j) ∧
    (a.update h b none).next = h.next := by
  have hnames : commonNames a b = a.names := commonNames_all a b hab
  obtain ⟨hmem, hframe, hnext⟩ :=
    update_spec a b h hnames hwfa.1 hwfa.2.2.2 hdisj
  rw [hnames]
  refine ⟨hmem, ?_, hframe, hnext⟩
  intro name hm
  rw [hmem name hm, hwfb.2.2.1 name (hab ▸ hm), hlen]

/-- Witness for C3: updating a concrete container from a same-schema,
same-length container overwrites both members in place and changes nothing
else. -/
theorem C3_witness :
    (∀ name ∈ commonNames wA wB, (wA.update wHeap wB none).mem (wA.ids name) =
      wHeap.mem (wB.ids name)) ∧
    (∀ name ∈ commonNames wA wB,
      ((wA.update wHeap wB none).mem (wA.ids name)).length = wA.n) ∧
    (∀ j, (∀ name ∈ commonNames wA wB, wA.ids name ≠ j) →
      (wA.update wHeap wB none).mem j = wHeap.mem j) ∧
    (wA.update wHeap wB none).next = wHeap.next :=
  C3_update_common_members wA wB wHeap (by decide) (by decide) (by decide) (by decide)
    (by decide)

theorem writeAt_range_len (arr vals : List Int) (o m : Nat) (hm : vals.length = m)
    (hb : o + m ≤ arr.length) :
    writeAt arr (List.range' o m) vals = arr.take o ++ vals ++ arr.drop (o + m) := by
  subst hm
  exact writeAt_range' vals arr o hb

theorem selectRows_range_len (arr : List Int) (o m : Nat) (hb : o + m ≤ arr.length) :
    selectRows arr (List.range' o m) = (arr.drop o).take m :=
  selectRows_range' m o arr hb

/-- Layout produced by `combine` on a two-element list of same-schema
containers: the result is a fresh well-formed container of the summed length
in which every member array is the concatenation of the two inputs' member
arrays, in input order with no gaps. -/
theorem combine_pair_spec (S : List String) (a b : StructureOfArrays) (h : Heap)
    (hSa : a.names = S) (hSb : b.names = S) (hwfa : a.WF h) (hwfb : b.WF h) :
    ∃ h' self, StructureOfArrays.combine S [a, b] h = (h', self) ∧
      self.names = S ∧ self.n = a.n + b.n ∧
      (∀ name ∈ S, h'.mem (self.ids name) = h.mem (a.ids name) ++ h.mem (b.ids name)) ∧
      self.WF h' := by
  obtain ⟨hndA, hltA, hlenA, hinjA⟩ := hwfa
  obtain ⟨hndB, hltB, hlenB, hinjB⟩ := hwfb
  have hSnd : S.Nodup := hSa ▸ hndA
  set n : Nat := ([a, b].map StructureOfArrays.n).sum with hn
  have hnab : n = a.n + b.n := by simp [hn]
  set h1 : Heap := (StructureOfArrays.construct S n h).1 with hh1
  set self : StructureOfArrays := (StructureOfArrays.construct S n h).2 with hself
  have hselfn : self.n = n := rfl
  have hselfnames : self.names = S := rfl
  have hids_ge : ∀ name, h.next ≤ self.ids name :=
    fun name => construct_ids_ge S n h name
  have hids_lt : ∀ name ∈ S, self.ids name < h1.next :=
    fun name hm => construct_ids_lt S n h name hm
  have hinj : ∀ na ∈ self.names, ∀ nb ∈ self.names, na ≠ nb →
      self.ids na ≠ self.ids nb :=
    fun na ha nb hb hne => construct_ids_inj S n h na nb ha hb hne
  have h1memold : ∀ j, j < h.next → h1.mem j = h.mem j :=
    fun j hj => construct_mem_old S n h j hj
  have hcont : ∀ name ∈ S, h1.mem (self.ids name) = List.replicate n 0 :=
    fun name hm => construct_content S n h name hm
  have hdisjA : ∀ na ∈ self.names, ∀ nb ∈ self.names, self.ids na ≠ a.ids nb := by
    intro na _ nb hnb
    have h1 := hids_ge na
    have h2 := hltA nb (by rw [hSa]; exact hnb)
    omega
  have hdisjB : ∀ na ∈ self.names, ∀ nb ∈ self.names, self.ids na ≠ b.ids nb := by
    intro na _ nb hnb
    have h1 := hids_ge na
    have h2 := hltB nb (by rw [hSb]; exact hnb)
    omega
  have hres1 : resolveKey self.n
      (Key.slice (some ((0 : Nat) : Int)) (some ((0 + a.n : Nat) : Int)) none) =
      some (List.range' 0 a.n) := by
    rw [resolveKey]
    simp only [Option.getD_none]
    rw [if_neg (by norm_num : ¬(1 : Int) = 0)]
    rw [resolveSlice_closed self.n 0 a.n _ _ rfl (by push_cast; ring)
      (by rw [hselfn, hnab]; omega)]
  obtain ⟨h2, hset1, hmem1, hframe1, hnext1⟩ :=
    setitem_spec self a h1 _ (List.range' 0 a.n) hres1
      (commonNames_all self a (by rw [hselfnames, hSa]))
      (hselfnames ▸ hSnd) hinj hdisjA
  have hres2 : resolveKey self.n
      (Key.slice (some ((0 + a.n : Nat) : Int)) (some ((0 + a.n + b.n : Nat) : Int)) none) =
      some (List.range' (0 + a.n) b.n) := by
    rw [resolveKey]
    simp only [Option.getD_none]
    rw [if_neg (by norm_num : ¬(1 : Int) = 0)]
    rw [resolveSlice_closed self.n (0 + a.n) b.n _ _ rfl (by push_cast; ring)
      (by rw [hselfn, hnab]; omega)]
  obtain ⟨h3, hset2, hmem2, hframe2, hnext2⟩ :=
    setitem_spec self b h2 _ (List.range' (0 + a.n) b.n) hres2
      (commonNames_all self b (by rw [hselfnames, hSb]))
      (hselfnames ▸ hSnd) hinj hdisjB
  have hAmem : ∀ name ∈ S, h2.mem (self.ids name) =
      h.mem (a.ids name) ++ List.replicate b.n 0 := by
    intro name hm
    rw [hmem1 name (hselfnames ▸ hm), hcont name hm,
      h1memold (a.ids name) (hltA name (by rw [hSa]; exact hm))]
    rw [writeAt_range_len _ _ 0 a.n (hlenA name (by rw [hSa]; exact hm))
      (by rw [List.length_replicate]; omega)]
    rw [List.take_zero, List.drop_replicate]
    have harith : n - (0 + a.n) = b.n := by omega
    rw [harith, List.nil_append]
  have hBpres : ∀ name ∈ S, h2.mem (b.ids name) = h.mem (b.ids name) := by
    intro name hm
    rw [hframe1 (b.ids name) (fun nm hnm => hdisjB nm hnm name (hselfnames ▸ hm)),
      h1memold (b.ids name) (hltB name (by rw [hSb]; exact hm))]
  have hfinal : ∀ name ∈ S, h3.mem (self.ids name) =
      h.mem (a.ids name) ++ h.mem (b.ids name) := by
    intro name hm
    rw [hmem2 name (hselfnames ▸ hm), hAmem name hm, hBpres name hm]
    have hlb : (h.mem (b.ids name)).length = b.n := hlenB name (by rw [hSb]; exact hm)
    have hla : (h.mem (a.ids name)).length = a.n := hlenA name (by rw [hSa]; exact hm)
    rw [writeAt_range_len _ _ (0 + a.n) b.n hlb
      (by rw [List.length_append, List.length_replicate, hla]; omega)]
    have htake : (h.mem (a.ids name) ++ List.replicate b.n 0).take (0 + a.n) =
        h.mem (a.ids name) := by
      rw [Nat.zero_add, ← hla, List.take_left]
    have hdrop : (h.mem (a.ids name) ++ List.replicate b.n 0).drop (0 + a.n + b.n) = [] := by
      apply List.drop_eq_nil_of_le
      rw [List.length_append, List.length_replicate, hla]
      omega
    rw [htake, hdrop, List.append_nil]
  have hloop : StructureOfArrays.combine S [a, b] h = (h3, self) := by
    rw [StructureOfArrays.combine, if_neg (by simp)]
    have e1 : combineLoop (StructureOfArrays.construct S n h).2 [a, b] 0
        (StructureOfArrays.construct S n h).1 = h3 := by
      rw [← hh1, ← hself]
      simp only [combineLoop, hset1, hset2]
    rw [← hn]
    rw [e1, ← hself]
  refine ⟨h3, self, hloop, hselfnames, by rw [hselfn, hnab], hfinal, ?_⟩
  refine ⟨hselfnames ▸ hSnd, ?_, ?_, hinj⟩
  · intro name hm
    rw [hnext2, hnext1]
    exact hids_lt name (hselfnames ▸ hm)
  · intro name hm
    rw [hfinal name (hselfnames ▸ hm), List.length_append,
      hlenA name (by rw [hSa]; exact (hselfnames ▸ hm)),
      hlenB name (by rw [hSb]; exact (hselfnames ▸ hm)), hselfn, hnab]

/-- C2: `combine([])` returns a container of length 0; for all same-schema
containers `a` and `b`, `combine([a, b])` has length `len(a) + len(b)` and,
for every declared member, the rows are laid out in input order with no gaps,
so that slicing the result with `[0:len(a)]` reproduces `a` and with
`[len(a):]` reproduces `b` field-wise. -/
theorem C2_combine_concatenates (a b : StructureOfArrays) (h : Heap) (S : List String)
    (hSa : a.names = S) (hSb : b.names = S) (hwfa : a.WF h) (hwfb : b.WF h) :
    (StructureOfArrays.combine S [] h).2.n = 0 ∧
    ∃ h' self, StructureOfArrays.combine S [a, b] h = (h', self) ∧
      self.names = S ∧ self.n = a.n + b.n ∧
      (∀ name ∈ S, h'.mem (self.ids name) = h.mem (a.ids name) ++ h.mem (b.ids name)) ∧
      (∃ ha' ra, self.getitem h' (Key.slice (some 0) (some (a.n : Int)) none) =
          some (ha', ra) ∧ ra.names = S ∧ ra.n = a.n ∧
        ∀ name ∈ S, ha'.mem (ra.ids name) = h.mem (a.ids name)) ∧
      (∃ hb' rb, self.getitem h' (Key.slice (some (a.n : Int)) none none) =
          some (hb', rb) ∧ rb.names = S ∧ rb.n = b.n ∧
        ∀ name ∈ S, hb'.mem (rb.ids name) = h.mem (b.ids name)) := by
  refine ⟨rfl, ?_⟩
  obtain ⟨h', self, hcomb, hnames, hn, hmem, hwf'⟩ :=
    combine_pair_spec S a b h hSa hSb hwfa hwfb
  refine ⟨h', self, hcomb, hnames, hn, hmem, ?_, ?_⟩
  · have hresA : resolveKey self.n (Key.slice (some 0) (some (a.n : Int)) none) =
        some (List.range' 0 a.n) := by
      rw [resolveKey]
      simp only [Option.getD_none]
      rw [if_neg (by norm_num : ¬(1 : Int) = 0)]
      rw [resolveSlice_closed self.n 0 a.n 0 (a.n : Int) (by norm_num)
        (by push_cast; ring) (by omega)]
    obtain ⟨ha', ra, hcallA, hnamesA, hnA, hmemA, _, _, _⟩ :=
      getitem_spec self h' _ _ hwf' hresA
    refine ⟨ha', ra, hcallA, by rw [hnamesA, hnames], by rw [hnA, List.length_range'], ?_⟩
    intro name hm
    have hla : (h.mem (a.ids name)).length = a.n := hwfa.2.2.1 name (by rw [hSa]; exact hm)
    rw [hmemA name (by rw [hnames]; exact hm), hmem name hm,
      selectRows_range_len _ 0 a.n (by rw [List.length_append, hla]; omega),
      List.drop_zero, ← hla, List.take_left]
  · have hresB : resolveKey self.n (Key.slice (some (a.n : Int)) none none) =
        some (List.range' a.n b.n) := by
      rw [resolveKey]
      simp only [Option.getD_none]
      rw [if_neg (by norm_num : ¬(1 : Int) = 0)]
      rw [resolveSlice_to_end self.n a.n (a.n : Int) rfl (by omega)]
      have harith : self.n - a.n = b.n := by omega
      rw [harith]
    obtain ⟨hb', rb, hcallB, hnamesB, hnB, hmemB, _, _, _⟩ :=
      getitem_spec self h' _ _ hwf' hresB
    refine ⟨hb', rb, hcallB, by rw [hnamesB, hnames], by rw [hnB, List.length_range'], ?_⟩
    intro name hm
    have hla : (h.mem (a.ids name)).length = a.n := hwfa.2.2.1 name (by rw [hSa]; exact hm)
    have hlb : (h.mem (b.ids name)).length = b.n := hwfb.2.2.1 name (by rw [hSb]; exact hm)
    rw [hmemB name (by rw [hnames]; exact hm), hmem name hm,
      selectRows_range_len _ a.n b.n (by rw [List.length_append, hla, hlb]),
      ← hla, List.drop_left, ← hlb, List.take_length]

/-- Witness for C2: combining two concrete length-3 containers yields a
length-6 container whose members are the concatenated member arrays, and
slicing it back recovers each input. -/
theorem C2_witness :
    (StructureOfArrays.combine wS [] wHeap).2.n = 0 ∧
    ∃ h' self, StructureOfArrays.combine wS [wA, wB] wHeap = (h', self) ∧
      self.names = wS ∧ self.n = wA.n + wB.n ∧
      (∀ name ∈ wS, h'.mem (self.ids name) =
        wHeap.mem (wA.ids name) ++ wHeap.mem (wB.ids name)) ∧
      (∃ ha' ra, self.getitem h' (Key.slice (some 0) (some (wA.n : Int)) none) =
          some (ha', ra) ∧ ra.names = wS ∧ ra.n = wA.n ∧
        ∀ name ∈ wS, ha'.mem (ra.ids name) = wHeap.mem (wA.ids name)) ∧
      (∃ hb' rb, self.getitem h' (Key.slice (some (wA.n : Int)) none none) =
          some (hb', rb) ∧ rb.names = wS ∧ rb.n = wB.n ∧
        ∀ name ∈ wS, hb'.mem (rb.ids name) = wHeap.mem (wB.ids name)) :=
  C2_combine_concatenates wA wB wHeap wS (by decide) (by decide) (by decide) (by decide)

/-- C4 counterexample: assigning the name `update` — which is not in the
declared member-name set `["x"]` — on a fully initialized instance is silently
accepted, because `__setattr__` first delegates any name that is an attribute
of the class (line 209-210 of general.py); the claim says such an assignment
always raises an attribute error. -/
theorem C4_counterexample :
    StructureOfArrays.setattrOutcome baseClassAttrs ["_n", "x"] ["x"] "update" =
      SetattrOutcome.accepted ∧ "update" ∉ ["x"] := by
  decide

/-- C4 (amended): for attribute names that are not attributes of the class,
assigning a name that is neither already set on the instance, nor `_n`, nor in
the declared member-name set raises the not-listed attribute error, and
assigning a second time to an already-initialized member raises the
already-initialized error. -/
theorem C4_amended_setattr (classAttrs instanceAttrs memberNames : List String)
    (name : String) (hcls : name ∉ classAttrs) :
    (name ∉ instanceAttrs → name ≠ "_n" → name ∉ memberNames →
      StructureOfArrays.setattrOutcome classAttrs instanceAttrs memberNames name =
        SetattrOutcome.errorNotMember) ∧
    (name ∈ instanceAttrs →
      StructureOfArrays.setattrOutcome classAttrs instanceAttrs memberNames name =
        SetattrOutcome.errorAlreadyInit) := by
  constructor
  · intro h1 h2 h3
    rw [StructureOfArrays.setattrOutcome, if_neg hcls, if_neg h1, if_neg h2, if_neg h3]
  · intro h1
    rw [StructureOfArrays.setattrOutcome, if_neg hcls, if_pos h1]

/-- Witness for the amended C4: on an initialized instance with member `x`,
assigning the undeclared name `y` raises the not-listed error and re-assigning
`x` raises the already-initialized error. -/
theorem C4_witness :
    (StructureOfArrays.setattrOutcome baseClassAttrs ["_n", "x"] ["x"] "y" =
      SetattrOutcome.errorNotMember) ∧
    (StructureOfArrays.setattrOutcome baseClassAttrs ["_n", "x"] ["x"] "x" =
      SetattrOutcome.errorAlreadyInit) :=
  ⟨(C4_amended_setattr baseClassAttrs ["_n", "x"] ["x"] "y" (by decide)).1
      (by decide) (by decide) (by decide),
   (C4_amended_setattr baseClassAttrs ["_n", "x"] ["x"] "x" (by decide)).2 (by decide)⟩

/-- C8: bulk conversion from native with a zero-length container is a no-op:
it succeeds for every buffer argument (including an absent one), never reads
the buffer, leaves the heap — and hence the freshly allocated member arrays —
untouched, and never invokes the subclass read hook `_from_c_impl`. -/
theorem C8_empty_from_native_noop (impl : List Int → Heap → Heap) (h : Heap)
    (c : StructureOfArrays) (buf : Option (List Int)) (hc : c.n = 0) :
    ToCArrayMixin.update_from_c impl h c buf = Except.ok ⟨h, false, 0⟩ := by
  simp [ToCArrayMixin.update_from_c, hc]

/-- Witness for C8: a concrete zero-length container with an absent (null)
buffer converts without error, without reading the buffer, and without
invoking the hook. -/
theorem C8_witness :
    ToCArrayMixin.update_from_c (fun _ hh => hh) wHeap wEmpty none =
      Except.ok ⟨wHeap, false, 0⟩ :=
  C8_empty_from_native_noop (fun _ hh => hh) wHeap wEmpty none (by decide)

/-- C9 counterexample: for a wrapped producer returning Python `None`, two
invocations of the `single_cache` wrapper invoke the producer twice — the
claim that the producer is computed and stored on the first invocation only
(hence invoked at most once) is false, because `None` is also the cache's
empty sentinel. -/
theorem C9_counterexample :
    ¬ ((single_cache.callN none ⟨fun _ => [], 0⟩ single_cache.start 2).2.funcCalls ≤ 1) := by
  decide

/-- C9 (amended): for a producer whose result is not `None`, the producer is
computed and stored on the first invocation only, and every invocation
(including the first) returns an independent deep copy of the stored result:
mutating the returned copy arbitrarily does not change what a later invocation
returns, and the producer is not re-invoked. -/
theorem C9_amended_single_cache (v w : List Int) (h : Heap) :
    ∃ cid1 h1 s1,
      single_cache.call (some v) h single_cache.start = (some cid1, h1, s1) ∧
      s1.funcCalls = 1 ∧ h1.mem cid1 = v ∧
      ∃ cid2 h2 s2,
        single_cache.call (some v) (Heap.write h1 cid1 w) s1 = (some cid2, h2, s2) ∧
        s2.funcCalls = 1 ∧ h2.mem cid2 = v ∧ cid2 ≠ cid1 := by
  have e1 : h.next ≠ h.next + 1 := by omega
  have e2 : h.next + 2 ≠ h.next + 1 := by omega
  refine ⟨_, _, _, rfl, rfl, ?_, _, _, _, rfl, rfl, ?_, ?_⟩
  · simp [Heap.alloc]
  · simp [Heap.alloc, Heap.write, e1]
  · simp only [Heap.alloc, Heap.write]
    omega

/-- C5: the spec's concrete scenario — a native record type with a character
buffer field `name` and an object whose `name` attribute is the text
`sensor1` — cannot be converted: `to_c` raises a `TypeError`, because
`_get_c_member` (general.py line 150-152) is declared without its
`member_name` parameter, though the spec's described behavior (UTF-8 encoding
of the text into the buffer field) is clearly the intent of lines 128-133. -/
theorem C5_char_buffer_to_native_raises :
    ToCMixin.to_c [⟨"name", CFieldType.array CElem.c_char 16, none⟩]
      [("name", PyValue.pyStr "sensor1")] =
      Except.error "TypeError: _get_c_member() takes 1 positional argument but 2 were given" := by
  rfl

/-- C6: the scalar round trip `from_native(to_native(r)) == r` can never be
exercised: for any record with at least one schema field present — here a
scalar field `serial_number` with value 7 — `to_c` raises the `TypeError`
from the broken `_get_c_member`, so no native record is ever produced to feed
back into `from_c`. -/
theorem C6_scalar_round_trip_broken :
    ToCMixin.to_c [⟨"serial_number", CFieldType.scalar, none⟩]
      [("serial_number", PyValue.pyInt 7)] =
      Except.error "TypeError: _get_c_member() takes 1 positional argument but 2 were given" := by
  rfl

/-- C7: the bulk write direction is unusable: `ToCArrayMixin.to_c` carries a
`@classmethod` decorator (general.py line 304) while its body calls
`len(self)`, so every invocation — for every container and every subclass
hook — raises `TypeError` instead of producing a native buffer, and the bulk
round trip of the claim can never complete. -/
theorem C7_bulk_to_native_raises (impl : Nat → List Int) (c : StructureOfArrays) :
    ToCArrayMixin.to_c impl c =
      Except.error "TypeError: object of type type has no len()" := rfl
